import Mathlib

/-!
Shallow embedding of the `rust_training_blockchain` repository
(`src/block.rs`, `src/blockchain.rs`, `src/transaction.rs`, `src/tx.rs`,
`src/utxoset.rs`, `src/server.rs`).

Modelling conventions:
* Rust `i32` values that matter to the logic (`value`, `vout`) become `Int`;
  `usize` becomes `Nat`; byte vectors (`Vec<u8>`) become `List Nat`.
* The repository carries two generations of field names for the key material
  of inputs/outputs: `tx.rs` declares `TXInput.pub_key : Vec<u8>` and
  `TXOutput.pub_key_hash : Vec<u8>` while the constructors in
  `transaction.rs` still write `String`-typed `script_sig` / `script_pub_key`.
  Both slots carry the owner/unlocking key material; we model each as one
  `String` field, named after `tx.rs`.
* SHA-256 and bincode are external crates; a block digest is an abstract
  function of the tuple hashed in `Block::preapre_hash_data`
  (`(prev_block_hash, transactions, timestamp, TARGET_HEXT, nonce)`), and a
  transaction digest (`Transaction::set_id` / `hash`) is an abstract function
  of the transaction.
* `sled` databases are modelled as association lists with first-key-wins
  lookup; `HashMap` the same (the code never iterates a map whose order
  matters, except to dump the final UTXO map, which we compare by lookup).
* Rust panics (`unwrap` on `None`, out-of-bounds `Vec` indexing) are
  modelled by an `Option`-typed result, `none` meaning a panic.
-/

namespace RustChain

/-- `tx.rs`: `TXOutput { value: i32, pub_key_hash }` (legacy constructors
write the owner address into `script_pub_key`; one `String` field here). -/
structure TXOutput where
  value : Int
  pub_key_hash : String
deriving DecidableEq, Repr, Inhabited

/-- `tx.rs`: `TXInput { txid, vout: i32, signature: Vec<u8>, pub_key }`
(legacy constructors write the unlocking data into `script_sig`; the key
slot is one `String` field here, the signature a byte list). -/
structure TXInput where
  txid : String
  vout : Int
  signature : List Nat
  pub_key : String
deriving DecidableEq, Repr, Inhabited

/-- `tx.rs`: `TXOutputs { outputs: Vec<TXOutput> }`. -/
structure TXOutputs where
  outputs : List TXOutput
deriving DecidableEq, Repr, Inhabited

/-- `transaction.rs`: `Transaction { id, vin, vout }`. -/
structure Transaction where
  id : String
  vin : List TXInput
  vout : List TXOutput
deriving DecidableEq, Repr, Inhabited

/-- `block.rs`: `Block { timestamp: u128, transactions, prev_block_hash,
hash, height: usize, nonce: i32 }`.  The nonce search starts at 0 and counts
up, so the reachable nonces are naturals. -/
structure Block where
  timestamp : Nat
  transactions : List Transaction
  prev_block_hash : String
  hash : String
  height : Nat
  nonce : Nat
deriving DecidableEq, Repr, Inhabited

/-- `block.rs`: `pub const TARGET_HEXT: usize = 4;` -/
def TARGET_HEXT : Nat := 4

/-- Abstract digest of `Block::preapre_hash_data`'s tuple
`(prev_block_hash, transactions, timestamp, TARGET_HEXT, nonce)` followed by
SHA-256, rendered as a hex string. -/
abbrev BlockDigest := String → List Transaction → Nat → Nat → Nat → String

/-- Abstract digest used by `Transaction::set_id` / `Transaction::hash`
(SHA-256 of the bincode serialization of the whole transaction). -/
abbrev TxDigest := Transaction → String

/-! ### Association-list stores (sled databases and `HashMap`s) -/

/-- Keyed lookup, first matching key wins (map semantics). -/
def alookup {α : Type} : List (String × α) → String → Option α
  | [], _ => none
  | (k2, v) :: t, k => if k2 = k then some v else alookup t k

/-- Keyed insert: replace the value of an existing key, else append. -/
def ainsert {α : Type} : List (String × α) → String → α → List (String × α)
  | [], k, v => [(k, v)]
  | (k2, v2) :: t, k, v =>
    if k2 = k then (k, v) :: t else (k2, v2) :: ainsert t k v

/-- Keyed removal (`sled::Db::remove`). -/
def aremove {α : Type} : List (String × α) → String → List (String × α)
  | [], _ => []
  | (k2, v2) :: t, k => if k2 = k then t else (k2, v2) :: aremove t k

/-- The keys of a store. -/
def akeys {α : Type} (m : List (String × α)) : List String :=
  m.map Prod.fst

/-! ### `block.rs` -/

/-- The comparison performed at the end of `Block::validate`:
the first `TARGET_HEXT` characters of the hex digest are `'0'`
(`&hasher.result_str()[0..TARGET_HEXT] == "0000"`). -/
def hash_is_valid (s : String) : Bool :=
  decide (s.toList.take TARGET_HEXT = List.replicate TARGET_HEXT '0')

/-- `Block::preapre_hash_data` followed by SHA-256 (`run_proof_if_work` /
`validate` both hash the tuple `(prev, transactions, timestamp,
TARGET_HEXT, nonce)`), all behind the abstract digest. -/
def prepare_digest (digest : BlockDigest) (prev : String) (txs : List Transaction)
    (ts nonce : Nat) : String :=
  digest prev txs ts TARGET_HEXT nonce

/-- `Block::validate`. -/
def Block.validate (digest : BlockDigest) (b : Block) : Bool :=
  hash_is_valid (prepare_digest digest b.prev_block_hash b.transactions b.timestamp b.nonce)

/-- `Block::run_proof_if_work`: `while !self.validate() { self.nonce += 1 }`
starting from nonce 0, then store the digest at the final nonce.  The
existence hypothesis expresses that the search loop terminates (the block is
"returned" at all); the winning nonce is the least valid one. -/
def Block.run_proof_if_work (digest : BlockDigest) (b : Block)
    (hex : ∃ n, hash_is_valid
      (prepare_digest digest b.prev_block_hash b.transactions b.timestamp n) = true) :
    Block :=
  let n := Nat.find hex
  let b2 := { b with nonce := n }
  { b2 with hash := prepare_digest digest b2.prev_block_hash b2.transactions b2.timestamp b2.nonce }

/-- `Block::new_block(data, prev_block_hash, height)`; the timestamp is
taken from the system clock, so it is a parameter here. -/
def Block.new_block (digest : BlockDigest) (data : List Transaction)
    (prev_block_hash : String) (ts : Nat) (height : Nat)
    (hex : ∃ n, hash_is_valid (prepare_digest digest prev_block_hash data ts n) = true) :
    Block :=
  Block.run_proof_if_work digest
    { timestamp := ts
      transactions := data
      prev_block_hash := prev_block_hash
      hash := ""
      height := height
      nonce := 0 } hex

/-- `Block::new_genesis_block(coinbase)`: `new_block(vec![coinbase], "", 0)`. -/
def Block.new_genesis_block (digest : BlockDigest) (coinbase : Transaction) (ts : Nat)
    (hex : ∃ n, hash_is_valid (prepare_digest digest "" [coinbase] ts n) = true) :
    Block :=
  Block.new_block digest [coinbase] "" ts 0 hex

/-! ### `transaction.rs` -/

/-- `Transaction::set_id`: hash the serialized transaction (id still empty
at that point) and store the digest in `id`. -/
def Transaction.set_id (txHash : TxDigest) (tx : Transaction) : Transaction :=
  { tx with id := txHash tx }

/-- `Transaction::is_coinbase`:
`self.vin.len() == 1 && self.vin[0].txid.is_empty() && self.vin[0].vout == -1`. -/
def Transaction.is_coinbase (tx : Transaction) : Bool :=
  match tx.vin with
  | [v] => v.txid == "" && v.vout == (-1 : Int)
  | _ => false

/-- `Transaction::new_coinbase(to, data)`.  The source wraps the address of
the default memo in single quotes (`format!` with `\x27{}\x27`). -/
def Transaction.new_coinbase (txHash : TxDigest) (toAddr data : String) : Transaction :=
  let data := if data = "" then data ++ ("Reward to \x27" ++ toAddr ++ "\x27") else data
  Transaction.set_id txHash
    { id := ""
      vin := [{ txid := "", vout := -1, signature := [], pub_key := data }]
      vout := [{ value := 100, pub_key_hash := toAddr }] }

/-- `Transaction::new_UTXO(from, to, amount, bc)`.  The accumulation
`acc_v = bc.find_spendable_outputs(from, amount)` comes from a method that is
not part of the sources under `src/` (only this caller is), so it is passed
in as a parameter: `acc_v.1` is the accumulated value, `acc_v.2` the selected
`(txid, output indices)` pairs, exactly the shape the caller destructures.
The error value models `format_err!("Not Enough balance: current balance {}",
acc_v.0)` by carrying the balance. -/
def Transaction.new_UTXO (txHash : TxDigest) (sender toAddr : String) (amount : Int)
    (acc_v : Int × List (String × List Int)) : Except Int Transaction :=
  if acc_v.1 < amount then
    Except.error acc_v.1
  else
    let vin := acc_v.2.foldl
      (fun acc p => acc ++ p.2.map
        (fun out => { txid := p.1, vout := out, signature := [], pub_key := sender : TXInput }))
      []
    let vout := [{ value := amount, pub_key_hash := toAddr : TXOutput }] ++
      (if acc_v.1 > amount then [{ value := acc_v.1 - amount, pub_key_hash := sender : TXOutput }]
       else [])
    Except.ok (Transaction.set_id txHash { id := "", vin := vin, vout := vout })

/-- `Transaction::trim_copy`: same inputs with cleared signature and key
slots, same outputs, same id. -/
def Transaction.trim_copy (tx : Transaction) : Transaction :=
  { id := tx.id
    vin := tx.vin.map (fun v => { txid := v.txid, vout := v.vout, signature := [], pub_key := "" })
    vout := tx.vout.map (fun v => { value := v.value, pub_key_hash := v.pub_key_hash }) }

/-- Replace the `i`-th element of a list in place (`tx_copy.vin[in_id] = ...`). -/
def modifyIdx {α : Type} (f : α → α) : Nat → List α → List α
  | _, [] => []
  | 0, a :: t => f a :: t
  | n + 1, a :: t => a :: modifyIdx f n t

/-- Rust `v as usize` for `v : i32` on a 64-bit target: two's-complement
wrap into `0 .. 2^64`. -/
def usizeOfInt (v : Int) : Nat :=
  (v % (2 ^ 64 : Int)).toNat

/-- The pre-loop check of `Transaction::sign`:
`for vin in &self.vin { if prev_TXs.get(&vin.txid).unwrap().id.is_empty() { return Err } }`.
`none` models the `unwrap` panic on a missing previous transaction,
`some false` the early `Err`, `some true` fall-through. -/
def Transaction.sign_check : List TXInput → List (String × Transaction) → Option Bool
  | [], _ => some true
  | v :: rest, prev_TXs =>
    match alookup prev_TXs v.txid with
    | none => none
    | some p => if p.id = "" then some false else Transaction.sign_check rest prev_TXs

/-- The per-input loop of `Transaction::sign`, threading the trimmed copy
`tx_copy` through the listed indices.  Each iteration clears the copy's
signature slot, temporarily sets its key slot to the referenced output's
owner key hash, recomputes `tx_copy.id`, and clears the key slot again.
`none` models a panic (missing previous transaction or out-of-bounds output
index).  Note that nothing is ever written back to the real transaction. -/
def Transaction.sign_loop (txHash : TxDigest) (prev_TXs : List (String × Transaction)) :
    List Nat → Transaction → Option Transaction
  | [], tc => some tc
  | in_id :: rest, tc =>
    match alookup prev_TXs ((tc.vin.getD in_id default).txid) with
    | none => none
    | some prev_Tx =>
      let tc1 := { tc with vin := modifyIdx (fun v => { v with signature := [] }) in_id tc.vin }
      match prev_Tx.vout.get? (usizeOfInt ((tc1.vin.getD in_id default).vout)) with
      | none => none
      | some out =>
        let tc2 := { tc1 with
          vin := modifyIdx (fun v => { v with pub_key := out.pub_key_hash }) in_id tc1.vin }
        let tc3 := { tc2 with id := txHash tc2 }
        let tc4 := { tc3 with vin := modifyIdx (fun v => { v with pub_key := "" }) in_id tc3.vin }
        Transaction.sign_loop txHash prev_TXs rest tc4

/-- `Transaction::sign(private_key, prev_TXs)`.  Returns `some (.ok tx)` on
the `Ok(())` path, where `tx` is the state of `self` after the call;
`some (.error msg)` on the explicit `Err` path; `none` on a panic.  The
source signs nothing: `private_key` is never used and the loop mutates only
the trimmed copy, so the returned transaction is `self` unchanged. -/
def Transaction.sign (txHash : TxDigest) (self : Transaction) (private_key : List Nat)
    (prev_TXs : List (String × Transaction)) : Option (Except String Transaction) :=
  if self.is_coinbase then some (Except.ok self)
  else
    match Transaction.sign_check self.vin prev_TXs with
    | none => none
    | some false => some (Except.error "ERROR: Previous transaction is not correct!")
    | some true =>
      let tx_copy := self.trim_copy
      match Transaction.sign_loop txHash prev_TXs (List.range tx_copy.vin.length) tx_copy with
      | none => none
      | some _ => some (Except.ok self)

/-! ### `blockchain.rs` -/

def GENESIS_COINBASE_DATA : String :=
  "The Times 03/Jan/2009 Chancellor on brink of second bailout for banks"

/-- Mutable state of `Blockchain::find_UTXO`: the `utxos` map under
construction and the `spend_txos` map of observed spent output indices. -/
structure FUState where
  utxos : List (String × TXOutputs)
  spend_txos : List (String × List Int)
deriving DecidableEq, Repr

/-- One iteration of the `for index in 0..tx.vout.len()` loop of
`Blockchain::find_UTXO`.  When `spend_txos[tx.id]` already contains `index`
the whole body is skipped (`continue`), including the recording of `tx`'s
own inputs.  Otherwise the output is appended to `utxos[tx.id]` and, for a
non-coinbase transaction, every input's spent index is pushed onto
`spend_txos[input.txid]` (once per surviving output index). -/
def find_UTXO_index_step (tx : Transaction) (st : FUState) (index : Nat) : FUState :=
  let spent : Bool :=
    match alookup st.spend_txos tx.id with
    | some ids => ids.contains (index : Int)
    | none => false
  if spent then st
  else
    let utxos :=
      match alookup st.utxos tx.id with
      | some v => ainsert st.utxos tx.id ⟨v.outputs ++ [tx.vout.getD index default]⟩
      | none => ainsert st.utxos tx.id ⟨[tx.vout.getD index default]⟩
    let spend_txos :=
      if tx.is_coinbase then st.spend_txos
      else
        tx.vin.foldl
          (fun sp i =>
            match alookup sp i.txid with
            | some v => ainsert sp i.txid (v ++ [i.vout])
            | none => ainsert sp i.txid [i.vout])
          st.spend_txos
    ⟨utxos, spend_txos⟩

/-- Processing of one transaction inside `Blockchain::find_UTXO`. -/
def find_UTXO_tx (st : FUState) (tx : Transaction) : FUState :=
  (List.range tx.vout.length).foldl (find_UTXO_index_step tx) st

/-- `Blockchain::find_UTXO`.  The argument is the block sequence in the
order produced by `self.iter()`, i.e. tip first, genesis last. -/
def Blockchain.find_UTXO (blocks_iter_order : List Block) : List (String × TXOutputs) :=
  (blocks_iter_order.foldl (fun st b => b.transactions.foldl find_UTXO_tx st)
    (⟨[], []⟩ : FUState)).utxos

/-- The block mined by `Blockchain::add_block` (line 114):
`Block::new_block(transactions, lasthash, TARGET_HEXT)` — the constant
`TARGET_HEXT` is passed as the *height* argument.  `lasthash` is the value
read from the `"LAST"` key. -/
def Blockchain.add_block_mined (digest : BlockDigest) (lasthash : String)
    (transactions : List Transaction) (ts : Nat)
    (hex : ∃ n, hash_is_valid (prepare_digest digest lasthash transactions ts n) = true) :
    Block :=
  Block.new_block digest transactions lasthash ts TARGET_HEXT hex

/-- A value of the single sled keyspace `data/blocks`: serialized blocks
under their hash, and the tip hash bytes under `"LAST"`. -/
inductive DbEntry where
  | blk (b : Block)
  | tip (h : String)
deriving DecidableEq, Repr

/-- The block-store invariant of claim C7: if the `"LAST"` key is set, it
holds a hash under which a block is stored. -/
def tipOk (db : List (String × DbEntry)) : Bool :=
  match alookup db "LAST" with
  | none => true
  | some (.tip h) =>
    match alookup db h with
    | some (.blk _) => true
    | _ => false
  | some (.blk _) => false

/-- The successive store states of `Blockchain::add_block`: the state on
entry, the state after `db.insert(new_block.get_hash(), ...)` (line 116),
and the state after `db.insert("LAST", ...)` (line 117), in program order. -/
def Blockchain.add_block_states (db : List (String × DbEntry)) (b : Block) :
    List (List (String × DbEntry)) :=
  let s1 := ainsert db b.hash (.blk b)
  let s2 := ainsert s1 "LAST" (.tip b.hash)
  [db, s1, s2]

/-- The successive store states of `Blockchain::create_blockchain`: the
empty store after `remove_dir_all` + `sled::open`, the state after
`db.insert(genesis.get_hash(), ...)` (line 64), and the state after
`db.insert("LAST", ...)` (line 65), in program order. -/
def Blockchain.create_blockchain_states (genesis : Block) :
    List (List (String × DbEntry)) :=
  let s0 : List (String × DbEntry) := []
  let s1 := ainsert s0 genesis.hash (.blk genesis)
  let s2 := ainsert s1 "LAST" (.tip genesis.hash)
  [s0, s1, s2]

/-- The chain (in append order) produced by `Blockchain::create_blockchain`:
a single genesis block whose coinbase pays `address` with memo
`GENESIS_COINBASE_DATA`. -/
def Blockchain.create_blockchain_chain (digest : BlockDigest) (txHash : TxDigest)
    (address : String) (ts : Nat)
    (hex : ∃ n, hash_is_valid (prepare_digest digest ""
      [Transaction.new_coinbase txHash address GENESIS_COINBASE_DATA] ts n) = true) :
    List Block :=
  [Block.new_genesis_block digest (Transaction.new_coinbase txHash address GENESIS_COINBASE_DATA)
    ts hex]

/-! ### `BlockchainIter` (`blockchain.rs`, lines 222-244)

`next` looks up the current hash in the block store; on success it yields
the block and moves `current_hash` to the block's `prev_block_hash`; any
lookup or deserialization failure ends the sequence.  The unbounded walk is
modelled with fuel: `iterRun store n cur` returns the blocks yielded within
`n` steps together with `some stopKey` if the walk stopped by itself at a
missing key `stopKey`, or `none` if the fuel ran out first. -/

def iterRun (store : List (String × Block)) : Nat → String → List Block × Option String
  | 0, _ => ([], none)
  | n + 1, cur =>
    match alookup store cur with
    | none => ([], some cur)
    | some b =>
      (b :: (iterRun store n b.prev_block_hash).1, (iterRun store n b.prev_block_hash).2)

/-- The hypothesis of claim C3: the block store maps each block's hash to
that block (every entry's key is its block's own hash). -/
def storeConsistent (store : List (String × Block)) : Prop :=
  ∀ p ∈ store, (p.2).hash = p.1

instance (store : List (String × Block)) : Decidable (storeConsistent store) :=
  List.decidableBAll _ store

/-- Chain completeness: every stored block whose predecessor hash is
non-empty has its predecessor in the store. -/
def storeComplete (store : List (String × Block)) : Prop :=
  ∀ p ∈ store, (p.2).prev_block_hash ≠ "" → (alookup store (p.2).prev_block_hash).isSome = true

instance (store : List (String × Block)) : Decidable (storeComplete store) :=
  List.decidableBAll _ store

/-- `block[i].prev_block_hash = block[i+1].hash` for consecutive yielded
blocks. -/
def chained : List Block → Prop
  | [] => True
  | [_] => True
  | a :: b :: t => a.prev_block_hash = b.hash ∧ chained (b :: t)

/-! ### `utxoset.rs` -/

/-- The body of the `for vin in &tx.vin` loop of `UTXOSet::update`:
look up the referenced transaction's entry (`unwrap` panic -> `none`), keep
every output whose position differs from `vin.vout as usize`, then remove
the entry if nothing is left, else overwrite it. -/
def UTXOSet.update_vin (db : List (String × TXOutputs)) (vin : TXInput) :
    Option (List (String × TXOutputs)) :=
  match alookup db vin.txid with
  | none => none
  | some outs =>
    if ((outs.outputs.enum.filter (fun p => p.1 ≠ usizeOfInt vin.vout)).map Prod.snd).isEmpty
    then some (aremove db vin.txid)
    else some (ainsert db vin.txid
      ⟨(outs.outputs.enum.filter (fun p => p.1 ≠ usizeOfInt vin.vout)).map Prod.snd⟩)

/-- Processing of one transaction by `UTXOSet::update`: for a non-coinbase
transaction first consume every input, then (in both cases) store the
transaction's full output list under its id. -/
def UTXOSet.update_tx (db : List (String × TXOutputs)) (tx : Transaction) :
    Option (List (String × TXOutputs)) :=
  match (if tx.is_coinbase then some db else tx.vin.foldlM UTXOSet.update_vin db) with
  | none => none
  | some db2 => some (ainsert db2 tx.id ⟨tx.vout⟩)

/-- `UTXOSet::update(block)`. -/
def UTXOSet.update (db : List (String × TXOutputs)) (block : Block) :
    Option (List (String × TXOutputs)) :=
  block.transactions.foldlM UTXOSet.update_tx db

/-- `UTXOSet::reindex` wipes the `data/utxos` store and inserts every entry
of `Blockchain::find_UTXO`; the resulting store is that map.  The argument
is the chain in append order (genesis first); iteration visits it
tip-first. -/
def UTXOSet.reindex (chain_append_order : List Block) : List (String × TXOutputs) :=
  Blockchain.find_UTXO chain_append_order.reverse

/-- Folding `UTXOSet::update` over the blocks in append order starting from
the empty index (`none` if some update panics). -/
def UTXOSet.update_fold (chain_append_order : List Block) :
    Option (List (String × TXOutputs)) :=
  chain_append_order.foldlM UTXOSet.update []

/-- Modelled from the spec: `UTXOSet::find_UTXO(pub_key_hash)`
(spec 4.3 `FindUTXOForAddress`, used by the CLI `getbalance` path) is
missing from the sources under `src/` — `cli.rs` calls it but `utxoset.rs`
does not define it.  Per the spec it returns all outputs in the UTXO store
owned by the given key hash. -/
def UTXOSet.find_UTXO_for_address (db : List (String × TXOutputs))
    (pub_key_hash : String) : List TXOutput :=
  ((db.map (fun p => p.2.outputs)).flatten).filter (fun o => o.pub_key_hash == pub_key_hash)

/-- Modelled from the spec: the CLI `getbalance` operation — reindex the
UTXO store from the chain, collect the address's outputs, and sum their
values (spec 6, `getBalance(address)`; addresses are consumed as opaque
key-hash material). -/
def get_balance (chain_append_order : List Block) (address : String) : Int :=
  ((UTXOSet.find_UTXO_for_address (UTXOSet.reindex chain_append_order) address).map
    (fun o => o.value)).foldl (· + ·) 0

/-! ### `server.rs` -/

/-- The parts of `Server` state and of the environment that
`Server::send_data` observes: the node's own address, the peer registry
(`known_nodes`, a set of addresses), and the outcome of the two fallible
steps `TcpStream::connect` and `stream.write`. -/
structure SendEnv where
  node_address : String
  known_nodes : List String
  connect_ok : Bool
  write_ok : Bool
deriving DecidableEq, Repr

/-- `Server::remove_node`: remove the address from `known_nodes`. -/
def Server.remove_node (nodes : List String) (addr : String) : List String :=
  nodes.filter (fun a => a ≠ addr)

/-- `Server::send_data(addr, data)`.  Result: the peer registry after the
call and `true` for `Ok(())` / `false` for a propagated error.  The source
returns `Ok` immediately for the own address; on a *connect* failure it
removes the peer and returns `Ok`; but a *write* failure is propagated with
`?` and the registry is left unchanged. -/
def Server.send_data (env : SendEnv) (addr : String) : List String × Bool :=
  if addr = env.node_address then (env.known_nodes, true)
  else if env.connect_ok = false then (Server.remove_node env.known_nodes addr, true)
  else if env.write_ok = false then (env.known_nodes, false)
  else (env.known_nodes, true)

/-! ### Preconditions for claim C10 -/

/-- The static precondition named by claim C10: every non-coinbase input of
the block references a txid that has an entry in the UTXO store as it is
when `update` is called. -/
def update_static_precondition (db : List (String × TXOutputs))
    (txs : List Transaction) : Bool :=
  txs.all (fun tx => tx.is_coinbase || tx.vin.all (fun v => (alookup db v.txid).isSome))

/-- The execution-order precondition: walking the block's transactions in
order with the set `ks` of keys that may have an entry, each non-coinbase
input's txid must be among the currently possible keys, and each
transaction contributes its own id for its successors. -/
def update_precond_aux (ks : List String) : List Transaction → Prop
  | [] => True
  | tx :: rest =>
    (tx.is_coinbase = false → ∀ v ∈ tx.vin, v.txid ∈ ks) ∧
      update_precond_aux (tx.id :: ks) rest

/-! ### Concrete inputs used by counterexamples and witnesses -/

/-- A block digest that is constantly `"0000"`, so every nonce wins
immediately (the role small difficulties play in the repository's tests). -/
def constZeroDigest : BlockDigest := fun _ _ _ _ _ => "0000"

/-- A transaction digest that is constantly `"d"`. -/
def constTxDigest : TxDigest := fun _ => "d"

/-- C1 failing chain, transactions: a genesis coinbase paying `A`, then a
chain of single-output spends `A -> B -> C -> D`, one per block.  The ids
stand for the SHA-256 ids the code would compute. -/
def cbTx : Transaction := ⟨"cb", [⟨"", -1, [], "base"⟩], [⟨100, "A"⟩]⟩

def t1Tx : Transaction := ⟨"t1", [⟨"cb", 0, [], "A"⟩], [⟨100, "B"⟩]⟩

def t2Tx : Transaction := ⟨"t2", [⟨"t1", 0, [], "B"⟩], [⟨100, "C"⟩]⟩

def t3Tx : Transaction := ⟨"t3", [⟨"t2", 0, [], "C"⟩], [⟨100, "D"⟩]⟩

/-- C1 failing chain in append order (genesis first). -/
def chainCex : List Block :=
  [⟨0, [cbTx], "", "h1", 0, 0⟩,
   ⟨1, [t1Tx], "h1", "h2", TARGET_HEXT, 0⟩,
   ⟨2, [t2Tx], "h2", "h3", TARGET_HEXT, 0⟩,
   ⟨3, [t3Tx], "h3", "h4", TARGET_HEXT, 0⟩]

/-- C3 counterexample: a self-referential block (its predecessor hash is its
own hash), stored consistently under its hash. -/
def cycBlock : Block := ⟨0, [], "h", "h", 0, 0⟩

def cycStore : List (String × Block) := [("h", cycBlock)]

/-- C3 counterexample: a block whose non-empty predecessor hash `"x"` is
absent from the store. -/
def danglingBlock : Block := ⟨0, [], "x", "h2", 0, 0⟩

def danglingStore : List (String × Block) := [("h2", danglingBlock)]

/-- C3 witness store: one genesis block, predecessor hash empty. -/
def gBlock : Block := ⟨0, [], "", "g", 0, 0⟩

def gStore : List (String × Block) := [("g", gBlock)]

/-- C4 failing input: the previous transaction `"p"` paying 100 to `A`. -/
def sigTxP : Transaction := ⟨"p", [⟨"", -1, [], "base"⟩], [⟨100, "A"⟩]⟩

/-- C4 failing input: the transaction to sign, spending `("p", 0)`. -/
def sigTxT : Transaction := ⟨"t", [⟨"p", 0, [], "A"⟩], [⟨100, "B"⟩]⟩

/-- C7 witness block. -/
def wBlock : Block := ⟨0, [], "", "g7", 0, 0⟩

/-- C10 counterexample: a transaction with no inputs (not coinbase-shaped,
since a coinbase has exactly one sentinel input) creating output `("a", 0)`. -/
def c10TxA : Transaction := ⟨"a", [], [⟨5, "A"⟩]⟩

/-- C10 counterexample: a transaction spending `("a", 0)`, created in the
same block. -/
def c10TxB : Transaction := ⟨"b", [⟨"a", 0, [], "A"⟩], [⟨5, "B"⟩]⟩

/-- C10 counterexample block. -/
def c10Block : Block := ⟨0, [c10TxA, c10TxB], "", "hb", 0, 0⟩

/-- C10 witness: store with one spendable entry. -/
def c10wDb : List (String × TXOutputs) := [("x", ⟨[⟨7, "A"⟩]⟩)]

/-- C10 witness: a block spending that entry. -/
def c10wBlock : Block := ⟨0, [⟨"s", [⟨"x", 0, [], "A"⟩], [⟨7, "B"⟩]⟩], "", "hw", 0, 0⟩

/-! ## Theorems -/

/-! ### Store lemmas -/

theorem alookup_ainsert_self {α : Type} (m : List (String × α)) (k : String) (v : α) :
    alookup (ainsert m k v) k = some v := by
  induction m with
  | nil => simp [ainsert, alookup]
  | cons p t ih =>
    obtain ⟨k2, v2⟩ := p
    by_cases h : k2 = k <;> simp [ainsert, alookup, h, ih]

theorem alookup_ainsert_ne {α : Type} (m : List (String × α)) (k k' : String) (v : α)
    (h : k ≠ k') : alookup (ainsert m k v) k' = alookup m k' := by
  induction m with
  | nil => simp [ainsert, alookup, h]
  | cons p t ih =>
    obtain ⟨k2, v2⟩ := p
    by_cases h2 : k2 = k
    · subst h2; simp [ainsert, alookup, h]
    · simp [ainsert, alookup, h2, ih]

theorem mem_of_alookup_eq_some {α : Type} {m : List (String × α)} {k : String} {v : α}
    (h : alookup m k = some v) : (k, v) ∈ m := by
  induction m with
  | nil => simp [alookup] at h
  | cons p t ih =>
    obtain ⟨k2, v2⟩ := p
    by_cases h2 : k2 = k
    · subst h2
      simp [alookup] at h
      subst h
      exact List.mem_cons_self _ _
    · simp [alookup, h2] at h
      exact List.mem_cons_of_mem _ (ih h)

theorem mem_akeys_of_alookup {α : Type} {m : List (String × α)} {k : String} {v : α}
    (h : alookup m k = some v) : k ∈ akeys m := by
  have := mem_of_alookup_eq_some h
  exact List.mem_map_of_mem Prod.fst this

theorem mem_of_mem_aremove {α : Type} {m : List (String × α)} {k : String} :
    ∀ p ∈ aremove m k, p ∈ m := by
  induction m with
  | nil => intro p hp; simp [aremove] at hp
  | cons q t ih =>
    obtain ⟨k2, v2⟩ := q
    intro p hp
    by_cases h2 : k2 = k
    · simp only [aremove, if_pos h2] at hp
      exact List.mem_cons_of_mem _ hp
    · simp only [aremove, if_neg h2] at hp
      rcases List.mem_cons.mp hp with hp | hp
      · exact hp ▸ List.mem_cons_self _ _
      · exact List.mem_cons_of_mem _ (ih p hp)

theorem mem_of_mem_ainsert {α : Type} {m : List (String × α)} {k : String} {v : α} :
    ∀ p ∈ ainsert m k v, p = (k, v) ∨ p ∈ m := by
  induction m with
  | nil =>
    intro p hp
    simp [ainsert] at hp
    left; exact hp
  | cons q t ih =>
    obtain ⟨k2, v2⟩ := q
    intro p hp
    by_cases h2 : k2 = k
    · simp only [ainsert, if_pos h2] at hp
      rcases List.mem_cons.mp hp with hp | hp
      · left; exact hp
      · right; exact List.mem_cons_of_mem _ hp
    · simp only [ainsert, if_neg h2] at hp
      rcases List.mem_cons.mp hp with hp | hp
      · right; exact hp ▸ List.mem_cons_self _ _
      · rcases ih p hp with h | h
        · left; exact h
        · right; exact List.mem_cons_of_mem _ h

theorem akeys_aremove_subset {α : Type} (m : List (String × α)) (k : String) :
    ∀ x ∈ akeys (aremove m k), x ∈ akeys m := by
  intro x hx
  rw [akeys, List.mem_map] at hx
  obtain ⟨p, hp, hpx⟩ := hx
  rw [akeys, List.mem_map]
  exact ⟨p, mem_of_mem_aremove p hp, hpx⟩

theorem akeys_ainsert_subset {α : Type} (m : List (String × α)) (k : String) (v : α) :
    ∀ x ∈ akeys (ainsert m k v), x = k ∨ x ∈ akeys m := by
  intro x hx
  rw [akeys, List.mem_map] at hx
  obtain ⟨p, hp, hpx⟩ := hx
  rcases mem_of_mem_ainsert p hp with h | h
  · left; rw [← hpx, h]
  · right; rw [akeys, List.mem_map]; exact ⟨p, h, hpx⟩

/-! ### Claim C2: proof-of-work hash -/

/-- C2: every block returned by `Block::new_block` stores as `hash` the
digest of the tuple `(prev_block_hash, transactions, timestamp,
TARGET_HEXT, nonce)` at the winning nonce, and that digest's first
`TARGET_HEXT` characters are all `'0'`. -/
theorem new_block_hash_is_winning_digest (digest : BlockDigest)
    (data : List Transaction) (prev : String) (ts height : Nat)
    (hex : ∃ n, hash_is_valid (prepare_digest digest prev data ts n) = true) :
    (Block.new_block digest data prev ts height hex).hash =
      prepare_digest digest prev data ts (Block.new_block digest data prev ts height hex).nonce
    ∧ (Block.new_block digest data prev ts height hex).hash.toList.take TARGET_HEXT =
      List.replicate TARGET_HEXT '0' := by
  constructor
  · rfl
  · have h := Nat.find_spec hex
    rw [hash_is_valid, decide_eq_true_eq] at h
    exact h

/-- C2 witness: instantiation at the constant-zeros digest, nonce 0 wins. -/
theorem new_block_hash_is_winning_digest_witness :
    (Block.new_block constZeroDigest [] "p" 7 9 ⟨0, by decide⟩).hash =
      prepare_digest constZeroDigest "p" [] 7
        (Block.new_block constZeroDigest [] "p" 7 9 ⟨0, by decide⟩).nonce
    ∧ (Block.new_block constZeroDigest [] "p" 7 9 ⟨0, by decide⟩).hash.toList.take TARGET_HEXT =
      List.replicate TARGET_HEXT '0' :=
  new_block_hash_is_winning_digest constZeroDigest [] "p" 7 9 ⟨0, by decide⟩

/-! ### Claim C9: heights -/

/-- C9: every block mined through `Blockchain::add_block` is created with
height `TARGET_HEXT` (= 4), regardless of the predecessor or chain length,
while the genesis block has height 0. -/
theorem add_block_height_is_TARGET_HEXT (digest : BlockDigest) (lasthash : String)
    (txs : List Transaction) (ts : Nat)
    (hex1 : ∃ n, hash_is_valid (prepare_digest digest lasthash txs ts n) = true)
    (digest2 : BlockDigest) (cb : Transaction) (ts2 : Nat)
    (hex2 : ∃ n, hash_is_valid (prepare_digest digest2 "" [cb] ts2 n) = true) :
    (Blockchain.add_block_mined digest lasthash txs ts hex1).height = TARGET_HEXT
    ∧ TARGET_HEXT = 4
    ∧ (Block.new_genesis_block digest2 cb ts2 hex2).height = 0 :=
  ⟨rfl, rfl, rfl⟩

/-- C9 witness. -/
theorem add_block_height_is_TARGET_HEXT_witness :
    (Blockchain.add_block_mined constZeroDigest "lh" [] 3 ⟨0, by decide⟩).height = TARGET_HEXT
    ∧ TARGET_HEXT = 4
    ∧ (Block.new_genesis_block constZeroDigest cbTx 5 ⟨0, by decide⟩).height = 0 :=
  add_block_height_is_TARGET_HEXT constZeroDigest "lh" [] 3 ⟨0, by decide⟩
    constZeroDigest cbTx 5 ⟨0, by decide⟩

/-! ### Claim C7: block write precedes tip update -/

theorem tipOk_insert_block (db : List (String × DbEntry)) (b : Block)
    (hb : b.hash ≠ "LAST") (h : tipOk db = true) :
    tipOk (ainsert db b.hash (.blk b)) = true := by
  cases hl : alookup db "LAST" with
  | none => simp [tipOk, alookup_ainsert_ne _ _ _ _ hb, hl]
  | some e =>
    cases e with
    | blk b2 => simp [tipOk, hl] at h
    | tip hsh =>
      by_cases hh : b.hash = hsh
      · subst hh
        simp [tipOk, alookup_ainsert_ne _ _ _ _ hb, hl, alookup_ainsert_self]
      · cases hs2 : alookup db hsh with
        | none => simp [tipOk, hl, hs2] at h
        | some e2 =>
          cases e2 with
          | tip h2 => simp [tipOk, hl, hs2] at h
          | blk b2 =>
            simp [tipOk, alookup_ainsert_ne _ _ _ _ hb, hl,
              alookup_ainsert_ne _ _ _ _ hh, hs2]

theorem tipOk_insert_tip (db : List (String × DbEntry)) (b : Block)
    (hb : b.hash ≠ "LAST") :
    tipOk (ainsert (ainsert db b.hash (.blk b)) "LAST" (.tip b.hash)) = true := by
  simp [tipOk, alookup_ainsert_self, alookup_ainsert_ne _ _ _ _ (Ne.symm hb)]

/-- C7: in both `Blockchain::create_blockchain` and `Blockchain::add_block`
the block is inserted under its hash before the `"LAST"` tip pointer is
updated, so every intermediate store state keeps the tip pointing at a
stored block.  (`b.hash ≠ "LAST"` holds for every real 64-character hex
digest.) -/
theorem block_write_precedes_tip_update (db : List (String × DbEntry)) (b g : Block)
    (hb : b.hash ≠ "LAST") (hg : g.hash ≠ "LAST") (hdb : tipOk db = true) :
    (∀ s ∈ Blockchain.add_block_states db b, tipOk s = true)
    ∧ (∀ s ∈ Blockchain.create_blockchain_states g, tipOk s = true) := by
  constructor
  · intro s hs
    simp only [Blockchain.add_block_states, List.mem_cons, List.not_mem_nil, or_false] at hs
    rcases hs with rfl | rfl | rfl
    · exact hdb
    · exact tipOk_insert_block db b hb hdb
    · exact tipOk_insert_tip db b hb
  · intro s hs
    simp only [Blockchain.create_blockchain_states, List.mem_cons, List.not_mem_nil,
      or_false] at hs
    rcases hs with rfl | rfl | rfl
    · rfl
    · exact tipOk_insert_block [] g hg rfl
    · exact tipOk_insert_tip [] g hg

/-- C7 witness. -/
theorem block_write_precedes_tip_update_witness :
    (∀ s ∈ Blockchain.add_block_states [] wBlock, tipOk s = true)
    ∧ (∀ s ∈ Blockchain.create_blockchain_states wBlock, tipOk s = true) :=
  block_write_precedes_tip_update [] wBlock wBlock (by decide) (by decide) rfl

/-! ### Claim C5: `Transaction::new_UTXO` -/

theorem foldl_append_map_eq_bind {α β : Type} (l : List α) (f : α → List β) :
    ∀ init : List β, l.foldl (fun acc p => acc ++ f p) init = init ++ l.flatMap f := by
  induction l with
  | nil => intro init; simp
  | cons a t ih => intro init; simp [List.foldl, ih]

/-- C5: `Transaction::new_UTXO` fails with the current balance when the
accumulated spendable value is below the amount; otherwise it builds one
input per selected `(txid, output index)` pair, a first output of `amount`
to the recipient, and a change output of the remainder back to the sender
exactly when the accumulation exceeds the amount. -/
theorem new_UTXO_spec (txHash : TxDigest) (sender toA : String) (amount : Int)
    (acc_v : Int × List (String × List Int)) :
    (acc_v.1 < amount →
      Transaction.new_UTXO txHash sender toA amount acc_v = Except.error acc_v.1)
    ∧ (amount ≤ acc_v.1 →
      ∃ tx, Transaction.new_UTXO txHash sender toA amount acc_v = Except.ok tx
        ∧ tx.vin = acc_v.2.flatMap
            (fun p => p.2.map (fun out => ⟨p.1, out, [], sender⟩))
        ∧ tx.vout.head? = some ⟨amount, toA⟩
        ∧ (amount < acc_v.1 → tx.vout = [⟨amount, toA⟩, ⟨acc_v.1 - amount, sender⟩])
        ∧ (acc_v.1 = amount → tx.vout = [⟨amount, toA⟩])) := by
  constructor
  · intro h
    simp [Transaction.new_UTXO, if_pos h]
  · intro h
    rw [Transaction.new_UTXO, if_neg (not_lt.mpr h)]
    refine ⟨_, rfl, ?_, ?_, ?_, ?_⟩
    · show (List.foldl _ [] _ : List TXInput) = _
      rw [foldl_append_map_eq_bind]
      simp
    · by_cases hgt : acc_v.1 > amount <;>
        simp [Transaction.set_id, if_pos, if_neg, hgt]
    · intro hgt
      simp [Transaction.set_id, if_pos hgt]
    · intro heq
      have : ¬ acc_v.1 > amount := by omega
      simp [Transaction.set_id, if_neg this]

/-- C5 witness: an insufficient-funds call and a successful call with
change. -/
theorem new_UTXO_spec_witness :
    Transaction.new_UTXO constTxDigest "s" "r" 20 (10, [("t", [0])]) = Except.error 10
    ∧ ∃ tx, Transaction.new_UTXO constTxDigest "s" "r" 4 (10, [("t", [0, 1])]) = Except.ok tx
        ∧ tx.vin = ([("t", [0, 1])] : List (String × List Int)).flatMap
            (fun p => p.2.map (fun out => ⟨p.1, out, [], "s"⟩))
        ∧ tx.vout.head? = some ⟨4, "r"⟩
        ∧ ((4 : Int) < 10 → tx.vout = [⟨4, "r"⟩, ⟨(10 : Int) - 4, "s"⟩])
        ∧ ((10 : Int) = 4 → tx.vout = [⟨4, "r"⟩]) :=
  ⟨(new_UTXO_spec constTxDigest "s" "r" 20 (10, [("t", [0])])).1 (by decide),
   (new_UTXO_spec constTxDigest "s" "r" 4 (10, [("t", [0, 1])])).2 (by decide)⟩

/-! ### Claim C6: `Server::send_data` failure handling -/

/-- C6 counterexample: with a reachable peer whose write fails
(`connect_ok`, `¬write_ok`), `send_data` to a foreign address returns the
propagated error (`false`) and leaves the peer registry unchanged — the
claim says it would return success and remove the address. -/
theorem send_data_write_failure_counterexample :
    Server.send_data ⟨"localhost:3000", ["localhost:3001"], true, false⟩ "localhost:3001"
      = (["localhost:3001"], false)
    ∧ "localhost:3001" ∈
      (Server.send_data ⟨"localhost:3000", ["localhost:3001"], true, false⟩
        "localhost:3001").1 := by
  constructor
  · rfl
  · decide

/-- C6 amended: `send_data` is a success no-op for the node's own address;
on a *connect* failure it removes the address from `known_nodes` and
returns success; on a *write* failure the error propagates to the caller
and the registry is unchanged; on success the registry is unchanged. -/
theorem send_data_error_handling (env : SendEnv) (addr : String) :
    (addr = env.node_address → Server.send_data env addr = (env.known_nodes, true))
    ∧ (addr ≠ env.node_address → env.connect_ok = false →
        Server.send_data env addr = (Server.remove_node env.known_nodes addr, true))
    ∧ (addr ≠ env.node_address → env.connect_ok = true → env.write_ok = false →
        Server.send_data env addr = (env.known_nodes, false))
    ∧ (addr ≠ env.node_address → env.connect_ok = true → env.write_ok = true →
        Server.send_data env addr = (env.known_nodes, true)) := by
  refine ⟨fun h1 => ?_, fun h1 h2 => ?_, fun h1 h2 h3 => ?_, fun h1 h2 h3 => ?_⟩
  · simp [Server.send_data, h1]
  · simp [Server.send_data, h1, h2]
  · simp [Server.send_data, h1, h2, h3]
  · simp [Server.send_data, h1, h2, h3]

/-- C6 witness: the four branches at concrete inputs. -/
theorem send_data_error_handling_witness :
    Server.send_data ⟨"a", ["b"], true, true⟩ "a" = (["b"], true)
    ∧ Server.send_data ⟨"a", ["b"], false, true⟩ "b" = (Server.remove_node ["b"] "b", true)
    ∧ Server.send_data ⟨"a", ["b"], true, false⟩ "b" = (["b"], false)
    ∧ Server.send_data ⟨"a", ["b"], true, true⟩ "b" = (["b"], true) :=
  ⟨(send_data_error_handling ⟨"a", ["b"], true, true⟩ "a").1 rfl,
   (send_data_error_handling ⟨"a", ["b"], false, true⟩ "b").2.1 (by decide) rfl,
   (send_data_error_handling ⟨"a", ["b"], true, false⟩ "b").2.2.1 (by decide) rfl rfl,
   (send_data_error_handling ⟨"a", ["b"], true, true⟩ "b").2.2.2 (by decide) rfl rfl⟩

/-! ### Claim C4: `Transaction::sign` stores no signature -/

/-- C4: at a well-formed non-coinbase input (previous transaction present,
valid output index), `Transaction::sign` completes the per-input digest loop
and returns `Ok` — but the transaction it leaves behind is the unmodified
input (`sigTxT` itself): every signature slot is still empty and the result
does not depend on the private key.  The claim (and spec section 4.4) says
the computed signature bytes are stored on the corresponding input. -/
theorem sign_stores_no_signature :
    Transaction.sign constTxDigest sigTxT [1, 2, 3] [("p", sigTxP)]
      = some (Except.ok sigTxT)
    ∧ Transaction.sign constTxDigest sigTxT [9] [("p", sigTxP)]
      = Transaction.sign constTxDigest sigTxT [1, 2, 3] [("p", sigTxP)]
    ∧ sigTxT.vin.map TXInput.signature = [[]] :=
  ⟨rfl, rfl, rfl⟩

/-! ### Claim C1: `reindex` versus folded `update` -/

/-- C1: on the four-block chain `chainCex` (coinbase to `A`, then the
single-output spends `A -> B -> C -> D`), `UTXOSet::reindex` — which recomputes
the index with `Blockchain::find_UTXO` over the whole chain — keeps `t1`'s
long-spent output as unspent, while folding `UTXOSet::update` over the
blocks in append order from the empty index correctly drops it.  The two
indexes disagree at key `"t1"`, refuting the claimed invariant on this
chain. -/
theorem reindex_update_fold_divergence :
    alookup (UTXOSet.reindex chainCex) "t1" = some ⟨[⟨100, "B"⟩]⟩
    ∧ (UTXOSet.update_fold chainCex).map (fun db => alookup db "t1") = some none
    ∧ alookup (UTXOSet.reindex chainCex) "t3" = some ⟨[⟨100, "D"⟩]⟩
    ∧ (UTXOSet.update_fold chainCex).map (fun db => alookup db "t3")
      = some (some ⟨[⟨100, "D"⟩]⟩) := by
  refine ⟨?_, ?_, ?_, ?_⟩ <;> rfl

/-! ### Claim C8: coinbase shape and genesis balance -/

/-- C8: `Transaction::new_coinbase` always yields exactly one input with
empty referenced txid and index `-1` and exactly one output of value 100 to
the given address; `Transaction::is_coinbase` holds exactly for that
structural shape; and on the fresh ledger created for reward address `"A"`
the balance of `"A"` (sum of its unspent output values) is 100. -/
theorem coinbase_shape_and_genesis_balance (txHash : TxDigest) (toA data : String)
    (tx : Transaction) (digest : BlockDigest) (txHash2 : TxDigest) (ts : Nat)
    (hex : ∃ n, hash_is_valid (prepare_digest digest ""
      [Transaction.new_coinbase txHash2 "A" GENESIS_COINBASE_DATA] ts n) = true) :
    (Transaction.new_coinbase txHash toA data).vin.length = 1
    ∧ (∀ v ∈ (Transaction.new_coinbase txHash toA data).vin, v.txid = "" ∧ v.vout = -1)
    ∧ (Transaction.new_coinbase txHash toA data).vout = [⟨100, toA⟩]
    ∧ (tx.is_coinbase = true ↔ ∃ v, tx.vin = [v] ∧ v.txid = "" ∧ v.vout = -1)
    ∧ get_balance (Blockchain.create_blockchain_chain digest txHash2 "A" ts hex) "A"
      = 100 := by
  refine ⟨rfl, ?_, rfl, ?_, ?_⟩
  · intro v hv
    simp [Transaction.new_coinbase, Transaction.set_id] at hv
    simp [hv]
  · obtain ⟨id, vin, vout⟩ := tx
    rcases vin with _ | ⟨v, _ | ⟨w, rest⟩⟩ <;>
      simp [Transaction.is_coinbase]
  · rfl

/-- C8 witness. -/
theorem coinbase_shape_and_genesis_balance_witness :
    (Transaction.new_coinbase constTxDigest "B" "").vin.length = 1
    ∧ (∀ v ∈ (Transaction.new_coinbase constTxDigest "B" "").vin, v.txid = "" ∧ v.vout = -1)
    ∧ (Transaction.new_coinbase constTxDigest "B" "").vout = [⟨100, "B"⟩]
    ∧ (cbTx.is_coinbase = true ↔ ∃ v, cbTx.vin = [v] ∧ v.txid = "" ∧ v.vout = -1)
    ∧ get_balance
        (Blockchain.create_blockchain_chain constZeroDigest constTxDigest "A" 0
          ⟨0, by decide⟩) "A" = 100 :=
  coinbase_shape_and_genesis_balance constTxDigest "B" "" cbTx constZeroDigest constTxDigest 0
    ⟨0, by decide⟩

/-! ### Claim C10: the `update` unwrap precondition -/

/-- C10 counterexample: on `c10Block`, whose second transaction spends an
output created by the block's own first transaction, `UTXOSet::update` from
the *empty* store succeeds even though the claimed precondition ("every
non-coinbase input references a txid that currently has an entry in the
UTXO store") is violated — so the precondition is not necessary for
totality. -/
theorem update_static_precondition_counterexample :
    (UTXOSet.update [] c10Block).isSome = true
    ∧ update_static_precondition [] c10Block.transactions = false :=
  ⟨rfl, rfl⟩

theorem update_vin_keys {db db1 : List (String × TXOutputs)} {v : TXInput}
    (h : UTXOSet.update_vin db v = some db1) :
    v.txid ∈ akeys db ∧ ∀ x ∈ akeys db1, x ∈ akeys db := by
  unfold UTXOSet.update_vin at h
  split at h
  · simp at h
  next outs heq =>
    have hmem := mem_akeys_of_alookup heq
    split at h <;> injection h with h <;> subst h
    · exact ⟨hmem, akeys_aremove_subset db v.txid⟩
    · refine ⟨hmem, fun x hx => ?_⟩
      rcases akeys_ainsert_subset db v.txid _ x hx with rfl | hx2
      · exact hmem
      · exact hx2

theorem update_vin_fold_keys :
    ∀ (l : List TXInput) (db db2 : List (String × TXOutputs)),
      l.foldlM UTXOSet.update_vin db = some db2 →
      (∀ v ∈ l, v.txid ∈ akeys db) ∧ (∀ x ∈ akeys db2, x ∈ akeys db) := by
  intro l
  induction l with
  | nil =>
    intro db db2 h
    simp [List.foldlM] at h
    subst h
    exact ⟨by simp, fun x hx => hx⟩
  | cons v rest ih =>
    intro db db2 h
    rw [List.foldlM_cons] at h
    cases hv : UTXOSet.update_vin db v with
    | none => rw [hv] at h; simp at h
    | some db1 =>
      rw [hv] at h
      simp only [Option.bind_eq_bind, Option.some_bind] at h
      obtain ⟨hmem, hsub⟩ := update_vin_keys hv
      obtain ⟨hall, hsub2⟩ := ih db1 db2 h
      refine ⟨?_, fun x hx => hsub x (hsub2 x hx)⟩
      intro w hw
      rcases List.mem_cons.mp hw with rfl | hw
      · exact hmem
      · exact hsub _ (hall w hw)

theorem update_tx_keys {db db2 : List (String × TXOutputs)} {tx : Transaction}
    (h : UTXOSet.update_tx db tx = some db2) :
    (tx.is_coinbase = false → ∀ v ∈ tx.vin, v.txid ∈ akeys db)
    ∧ (∀ x ∈ akeys db2, x = tx.id ∨ x ∈ akeys db) := by
  unfold UTXOSet.update_tx at h
  by_cases hcb : tx.is_coinbase
  · rw [if_pos hcb] at h
    injection h with h
    subst h
    refine ⟨fun hf => absurd hcb (by simp [hf]), fun x hx => ?_⟩
    exact akeys_ainsert_subset db tx.id _ x hx
  · rw [if_neg hcb] at h
    cases hf : tx.vin.foldlM UTXOSet.update_vin db with
    | none => rw [hf] at h; simp at h
    | some dbv =>
      rw [hf] at h
      injection h with h
      subst h
      obtain ⟨hall, hsub⟩ := update_vin_fold_keys tx.vin db dbv hf
      refine ⟨fun _ => hall, fun x hx => ?_⟩
      rcases akeys_ainsert_subset dbv tx.id _ x hx with rfl | hx2
      · left; rfl
      · right; exact hsub x hx2

theorem update_precond_of_foldlM :
    ∀ (txs : List Transaction) (db db2 : List (String × TXOutputs)) (ks : List String),
      (∀ x ∈ akeys db, x ∈ ks) →
      txs.foldlM UTXOSet.update_tx db = some db2 →
      update_precond_aux ks txs := by
  intro txs
  induction txs with
  | nil => intro db db2 ks hks h; trivial
  | cons tx rest ih =>
    intro db db2 ks hks h
    rw [List.foldlM_cons] at h
    cases htx : UTXOSet.update_tx db tx with
    | none => rw [htx] at h; simp at h
    | some db1 =>
      rw [htx] at h
      simp only [Option.bind_eq_bind, Option.some_bind] at h
      refine ⟨?_, ?_⟩
      · intro hcb v hv
        exact hks _ ((update_tx_keys htx).1 hcb v hv)
      · refine ih db1 db2 (tx.id :: ks) ?_ h
        intro x hx
        rcases (update_tx_keys htx).2 x hx with rfl | h1
        · exact List.mem_cons_self _ _
        · exact List.mem_cons_of_mem _ (hks x h1)

/-- C10 amended: `UTXOSet::update` unconditionally unwraps the store lookup
for each non-coinbase input, and whenever it completes without panicking,
every non-coinbase input referenced a txid that either had an entry in the
store when `update` was called or is the id of an earlier transaction in
the same block (the entries reachable at the moment that input is
processed). -/
theorem update_requires_evolving_entries (db : List (String × TXOutputs)) (b : Block)
    (h : (UTXOSet.update db b).isSome = true) :
    update_precond_aux (akeys db) b.transactions := by
  cases hu : UTXOSet.update db b with
  | none => rw [hu] at h; simp at h
  | some db2 =>
    exact update_precond_of_foldlM b.transactions db db2 (akeys db) (fun x hx => hx) hu

/-- C10 witness: a block spending the store's single entry `"x"`. -/
theorem update_requires_evolving_entries_witness :
    update_precond_aux (akeys c10wDb) c10wBlock.transactions :=
  update_requires_evolving_entries c10wDb c10wBlock rfl

/-! ### Claim C3: the backward iterator -/

theorem iterRun_head_hash {store : List (String × Block)} (hc : storeConsistent store) :
    ∀ (n : Nat) (cur : String) (b : Block),
      ((iterRun store n cur).1).head? = some b → b.hash = cur := by
  intro n
  cases n with
  | zero => intro cur b h; simp [iterRun] at h
  | succ n =>
    intro cur b h
    cases hl : alookup store cur with
    | none => simp [iterRun, hl] at h
    | some b2 =>
      simp [iterRun, hl] at h
      rw [← h]
      exact hc _ (mem_of_alookup_eq_some hl)

theorem iterRun_chained {store : List (String × Block)} (hc : storeConsistent store) :
    ∀ (n : Nat) (cur : String), chained (iterRun store n cur).1 := by
  intro n
  induction n with
  | zero => intro cur; simp [iterRun, chained]
  | succ n ih =>
    intro cur
    cases hl : alookup store cur with
    | none => simp [iterRun, hl, chained]
    | some b =>
      simp only [iterRun, hl]
      cases ht : (iterRun store n b.prev_block_hash).1 with
      | nil => simp [chained]
      | cons b2 t =>
        have hh : b2.hash = b.prev_block_hash := by
          apply iterRun_head_hash hc n b.prev_block_hash
          rw [ht]; rfl
        have hch := ih b.prev_block_hash
        rw [ht] at hch
        exact ⟨hh.symm, hch⟩

theorem iterRun_stop_spec {store : List (String × Block)} :
    ∀ (n : Nat) (cur k : String), (iterRun store n cur).2 = some k →
      alookup store k = none
      ∧ ((iterRun store n cur).1 = [] → k = cur)
      ∧ (∀ lb, (iterRun store n cur).1.getLast? = some lb →
          lb.prev_block_hash = k ∧ ∃ key, (key, lb) ∈ store) := by
  intro n
  induction n with
  | zero => intro cur k h; simp [iterRun] at h
  | succ n ih =>
    intro cur k h
    cases hl : alookup store cur with
    | none =>
      simp only [iterRun, hl] at h ⊢
      injection h with h
      subst h
      exact ⟨hl, fun _ => rfl, fun lb hlb => by simp at hlb⟩
    | some b =>
      simp only [iterRun, hl] at h ⊢
      obtain ⟨hnone, hemp, hlast⟩ := ih b.prev_block_hash k h
      refine ⟨hnone, fun habs => by simp at habs, ?_⟩
      intro lb hlb
      cases ht : (iterRun store n b.prev_block_hash).1 with
      | nil =>
        rw [ht] at hlb
        simp at hlb
        subst hlb
        exact ⟨(hemp ht).symm, cur, mem_of_alookup_eq_some hl⟩
      | cons b2 t =>
        rw [ht] at hlb
        rw [List.getLast?_cons_cons] at hlb
        apply hlast
        rw [ht]
        exact hlb

/-- C3 counterexample: (i) a store holding one block whose predecessor hash
is its own hash satisfies the claim's hypothesis, yet the iterator never
stops (the yield sequence is not finite); (ii) a store holding one block
with a dangling non-empty predecessor hash satisfies the hypothesis, yet
the iteration ends at a block whose predecessor hash is `"x"`, not `""`. -/
theorem iter_claim_counterexample :
    (storeConsistent cycStore ∧ ∀ n, (iterRun cycStore n "h").2 = none)
    ∧ (storeConsistent danglingStore
       ∧ (iterRun danglingStore 2 "h2").1.getLast? = some danglingBlock
       ∧ (iterRun danglingStore 2 "h2").2 = some "x"
       ∧ danglingBlock.prev_block_hash ≠ "") := by
  refine ⟨⟨by decide, ?_⟩, by decide, by decide, by decide, by decide⟩
  intro n
  induction n with
  | zero => rfl
  | succ n ih =>
    have step : (iterRun cycStore (n + 1) "h").2 = (iterRun cycStore n "h").2 := rfl
    rw [step]
    exact ih

/-- C3 amended: for every block store that maps each block's hash to that
block, in which every stored block's non-empty predecessor hash is itself a
key of the store, and whose backward walk from the tip terminates by a
failed lookup (within some fuel `n`), the yielded sequence satisfies
`block[i].prev_block_hash = block[i+1].hash` for consecutive blocks and its
last block — when any block is yielded — has the empty predecessor hash. -/
theorem iter_yields_backward_chain (store : List (String × Block)) (tip k : String)
    (n : Nat) (hc : storeConsistent store) (hcomp : storeComplete store)
    (hstop : (iterRun store n tip).2 = some k) :
    chained (iterRun store n tip).1
    ∧ ∀ lb, (iterRun store n tip).1.getLast? = some lb → lb.prev_block_hash = "" := by
  refine ⟨iterRun_chained hc n tip, ?_⟩
  intro lb hlb
  obtain ⟨hnone, -, hlast⟩ := iterRun_stop_spec n tip k hstop
  obtain ⟨hprev, key, hmem⟩ := hlast lb hlb
  by_contra hne
  have hsome := hcomp (key, lb) hmem hne
  rw [hprev, hnone] at hsome
  simp at hsome

/-- C3 witness: a single genesis block, walked from its hash with fuel 2,
stops at the empty key. -/
theorem iter_yields_backward_chain_witness :
    chained (iterRun gStore 2 "g").1
    ∧ ∀ lb, (iterRun gStore 2 "g").1.getLast? = some lb → lb.prev_block_hash = "" :=
  iter_yields_backward_chain gStore "g" "" 2 (by decide) (by decide) rfl

end RustChain
